import Mathlib

/-!
Shallow embedding of the RPGCog repository's inventory/equipment engine
(src/RPG.py), the character-registration wizard validation
(src/RPGCog.py, src/register_char_session.py) and the registration-session
registry, together with theorems settling the frozen claims.

Machine integers of the source are Python arbitrary-precision ints, so they
are modelled as Lean `Int`/`Nat` directly.  Python exceptions are modelled
with `Except`/error components; in-place mutation is modelled by explicit
state passing.  Mutating operations that can raise an exception after having
already mutated part of the character aggregate return the pair
(state at the moment the exception escapes, optional exception), because the
Python code mutates the aggregate in place and an exception leaves the
partial mutations behind.
-/

namespace RPG

/-- Exceptions raised by the engine (src/RPG.py bottom of file), plus the
built-in Python errors the code can hit: `attributeError` models Python's
AttributeError (e.g. `getattr(equipment, "shield")` on an Equipment that has
no such field, or `self.InventoryClass` on an RPG cog that never assigned
it), `keyError` models a missing-field subscript on a mongoengine document. -/
inductive PyErr where
  | itemNotFound
  | itemNotFoundInInventory
  | itemIsNotEquippable
  | characterNotFound
  | attributeError
  | keyError
deriving DecidableEq, Repr

/-- The three inventory categories: the keys "Weapon", "Armor", "Item" of the
`Inventory.items` dict in src/RPG.py. -/
inductive Category where
  | weaponCat
  | armorCat
  | itemCat
deriving DecidableEq, Repr

/-- Armor slots (`Armor.slots` keys in src/RPG.py): helmet, cuirass, boots,
gauntlets, shield. -/
inductive ArmorSlot where
  | helmet
  | cuirass
  | boots
  | gauntlets
  | shield
deriving DecidableEq, Repr

/-- A catalog entry: `Item` and its subclasses `Weapon` and `Armor` in
src/RPG.py.  Only the fields the engine operations read are modelled:
`item_id` (primary key), `hands` for weapons, `slot` and `armor` for armor.
The purely presentational fields (name, desc, price, rarity, material,
damage, attack type, weapon type, kind) are never read by add/remove/
equip/unequip and are omitted. -/
inductive CatItem where
  | plain (item_id : Nat)
  | weapon (item_id : Nat) (hands : Nat)
  | armor (item_id : Nat) (slot : ArmorSlot) (armor : Int)
deriving DecidableEq, Repr

/-- The `item_id` field common to all catalog entries. -/
def CatItem.item_id : CatItem → Nat
  | .plain i => i
  | .weapon i _ => i
  | .armor i _ _ => i

/-- `Inventory.get_item_category` in src/RPG.py: strips the "Item." prefix
from the mongoengine `_cls` string ("Item" / "Item.Weapon" / "Item.Armor"),
yielding the category key "Item", "Weapon" or "Armor" respectively. -/
def get_item_category : CatItem → Category
  | .plain _ => .itemCat
  | .weapon _ _ => .weaponCat
  | .armor _ _ _ => .armorCat

/-- `weapon_right["hands"]` style subscript on a catalog document: only a
Weapon document has the `hands` field; on any other document the subscript
raises (modelled as `keyError`). -/
def CatItem.getHands : CatItem → Except PyErr Nat
  | .weapon _ h => .ok h
  | _ => .error .keyError

/-- The item catalog (the `Item.objects` collection). -/
def Catalog := List CatItem

/-- `RPG.get_item_by_id` in src/RPG.py: find the catalog entry by id, raise
`ItemNotFound` otherwise.  The argument is an `Option Nat` because the blank
placeholder inventory record stores `""` as its item_id (modelled `none`),
which matches no catalog entry. -/
def get_item_by_id (cat : Catalog) : Option Nat → Except PyErr CatItem
  | none => .error .itemNotFound
  | some i =>
    match cat.find? (fun it => it.item_id == i) with
    | some it => .ok it
    | none => .error .itemNotFound

/-- An inventory stack record: one of the dicts stored in the lists of the
`Inventory.items` dict in src/RPG.py.  Real records carry `some id`; the
blank placeholder record `{"item_id": "", "count": 0}` is modelled with
`item_id = none` (its Python `""` value compares unequal to every integer
id, and its missing maker/temper keys are never reached because the
membership test short-circuits on the id comparison). -/
structure StackRec where
  item_id : Option Nat
  count : Int
  maker : Option String
  temper : Option Int
deriving DecidableEq, Repr

/-- The blank placeholder record appended by `Inventory.remove_item` when a
category list would become empty. -/
def blank : StackRec := ⟨none, 0, none, none⟩

/-- The key comparison of `Inventory.get_item`:
`_item["item_id"] == item.item_id and _item["maker"] == maker and
_item["temper"] == temper`. -/
def matchesKey (r : StackRec) (iid : Nat) (m : Option String) (t : Option Int) : Bool :=
  r.item_id == some iid && r.maker == m && r.temper == t

/-- `Inventory.get_item` restricted to one category list: first record
matching (item id, maker, temper), `none` when absent (the Python method
raises `ItemNotFoundInInventory` in that case; callers pattern-match). -/
def get_item (l : List StackRec) (iid : Nat) (m : Option String) (t : Option Int) :
    Option StackRec :=
  l.find? (fun r => matchesKey r iid m t)

/-- In-place `_item["count"] += d` on the first record matching the key,
as performed by `add_item`/`remove_item` on the record returned by
`get_item`. -/
def bumpFirst (l : List StackRec) (iid : Nat) (m : Option String) (t : Option Int)
    (d : Int) : List StackRec :=
  match l with
  | [] => []
  | r :: rs =>
    if matchesKey r iid m t then { r with count := r.count + d } :: rs
    else r :: bumpFirst rs iid m t d

/-- The pruning list-comprehension
`[item for item in self.items[category] if item.get("count") > 0]`. -/
def prune (l : List StackRec) : List StackRec :=
  l.filter (fun r => r.count > 0)

/-- `Inventory.add_item` restricted to the category list of the item.
Faithful detail: the source calls `self.get_item(item)` WITHOUT forwarding
the maker/temper arguments, so the lookup always targets the
(item id, None, None) stack; the passed maker/temper are used only when a
new record is appended.  Pruning runs only in the append branch. -/
def add_item (l : List StackRec) (iid : Nat) (count : Int) (maker : Option String)
    (temper : Option Int) : List StackRec :=
  match get_item l iid none none with
  | some _ => bumpFirst l iid none none count
  | none => prune (l ++ [⟨some iid, count, maker, temper⟩])

/-- `Inventory.remove_item` restricted to the category list: looks up the
default (None, None) stack via `get_item` (raising
`ItemNotFoundInInventory` before any mutation when absent), decrements its
count, and if the new count is < 1 prunes all non-positive records, putting
the blank placeholder in place of an emptied list. -/
def remove_item (l : List StackRec) (iid : Nat) (count : Int) :
    Except PyErr (List StackRec) :=
  match get_item l iid none none with
  | none => .error .itemNotFoundInInventory
  | some r =>
    let l1 := bumpFirst l iid none none (-count)
    if r.count - count < 1 then
      let l2 := prune l1
      .ok (if l2.length < 1 then [blank] else l2)
    else .ok l1

/-- The `Inventory.items` dict: category key → ordered list of stack
records.  The three keys are fixed ("Weapon", "Armor", "Item"), so the dict
is modelled as a structure with one list per category. -/
structure Inventory where
  weaponItems : List StackRec
  armorItems : List StackRec
  otherItems : List StackRec
deriving DecidableEq, Repr

/-- The freshly created inventory `{"Weapon": [], "Armor": [], "Item": []}`. -/
def emptyInventory : Inventory := ⟨[], [], []⟩

/-- `inventory.items[category]` read access. -/
def getCat (inv : Inventory) : Category → List StackRec
  | .weaponCat => inv.weaponItems
  | .armorCat => inv.armorItems
  | .itemCat => inv.otherItems

/-- `inventory.items[category]` write access. -/
def setCat (inv : Inventory) : Category → List StackRec → Inventory
  | .weaponCat, l => { inv with weaponItems := l }
  | .armorCat, l => { inv with armorItems := l }
  | .itemCat, l => { inv with otherItems := l }

/-- `Inventory.add_item` at the inventory level: dispatches on the item's
category. -/
def Inventory.add_item (inv : Inventory) (it : CatItem) (count : Int)
    (maker : Option String) (temper : Option Int) : Inventory :=
  let c := get_item_category it
  setCat inv c (RPG.add_item (getCat inv c) it.item_id count maker temper)

/-- `Inventory.remove_item` at the inventory level. -/
def Inventory.remove_item (inv : Inventory) (it : CatItem) (count : Int) :
    Except PyErr Inventory :=
  let c := get_item_category it
  match RPG.remove_item (getCat inv c) it.item_id count with
  | .error e => .error e
  | .ok l => .ok (setCat inv c l)

/-- The per-category test of `is_inventory_empty`: `items[0]["count"] > 0`,
with an IndexError on an empty list swallowed by the `try`. -/
def headPositive (l : List StackRec) : Bool :=
  match l.head? with
  | some r => decide (0 < r.count)
  | none => false

/-- `Inventory.is_inventory_empty`: for each category (dict insertion order
Weapon, Armor, Item) inspect only the first record; return False as soon as
one first record has positive count, True when no category did. -/
def is_inventory_empty (inv : Inventory) : Bool :=
  !(headPositive inv.weaponItems || headPositive inv.armorItems ||
    headPositive inv.otherItems)

/-- An equipped-item record (`item_instance = item.copy(); item_instance.pop("count")`
in `RPG.equip_item`): the stack record minus its count.  Only records whose
catalog lookup succeeded are ever placed into equipment, so the id is a
plain `Nat`. -/
structure EquipRec where
  item_id : Nat
  maker : Option String
  temper : Option Int
deriving DecidableEq, Repr

/-- The `Equipment` embedded document: six fixed slots; an empty slot is the
falsy `None`/`{}` value, modelled as `none`. -/
structure Equipment where
  right_hand : Option EquipRec
  left_hand : Option EquipRec
  helmet : Option EquipRec
  cuirass : Option EquipRec
  gauntlets : Option EquipRec
  boots : Option EquipRec
deriving DecidableEq, Repr

/-- The freshly created equipment `Equipment()` (all slots None). -/
def emptyEquipment : Equipment := ⟨none, none, none, none, none, none⟩

/-- The slot-name strings passed to `getattr`/`setattr` on an Equipment. -/
inductive Slot where
  | right_hand
  | left_hand
  | helmet
  | cuirass
  | gauntlets
  | boots
deriving DecidableEq, Repr

/-- `getattr(equipment, slot)`. -/
def getSlot (e : Equipment) : Slot → Option EquipRec
  | .right_hand => e.right_hand
  | .left_hand => e.left_hand
  | .helmet => e.helmet
  | .cuirass => e.cuirass
  | .gauntlets => e.gauntlets
  | .boots => e.boots

/-- `setattr(equipment, slot, v)`. -/
def setSlot (e : Equipment) : Slot → Option EquipRec → Equipment
  | .right_hand, v => { e with right_hand := v }
  | .left_hand, v => { e with left_hand := v }
  | .helmet, v => { e with helmet := v }
  | .cuirass, v => { e with cuirass := v }
  | .gauntlets, v => { e with gauntlets := v }
  | .boots, v => { e with boots := v }

/-- Maps an armor's `slot` field to the Equipment attribute of the same
name.  The Equipment class has no `shield` attribute, so
`getattr(equipment, "shield")` raises AttributeError: `shield` maps to
`none`. -/
def toSlot : ArmorSlot → Option Slot
  | .helmet => some .helmet
  | .cuirass => some .cuirass
  | .boots => some .boots
  | .gauntlets => some .gauntlets
  | .shield => none

/-- The character attributes, restricted to the single field the
equip/unequip engine reads or writes (`armor_rating`, IntField default 0).
health/stamina/magicka/main/resists/skills/unarmed_damage are untouched by
every operation modelled here. -/
structure Attributes where
  armor_rating : Int
deriving DecidableEq, Repr

/-- The character aggregate as seen by the engine: inventory, attributes,
equipment. -/
structure Character where
  inventory : Inventory
  attributes : Attributes
  equipment : Equipment
deriving DecidableEq, Repr

/-- `RPG.unequip_item(char, slot)` (src/RPG.py lines 1200-1219).

No-op if the slot is falsy.  Otherwise: clear the slot, look the item up in
the catalog (`get_item_by_id` may raise `ItemNotFound` AFTER the slot was
already cleared), return it to the inventory as a stack of 1 with the
recorded maker/temper.  The final branch of the source,
`if hasattr(inventory.items, "armor"): attributes.armor_rating -= item["armor"]`,
tests for an attribute named `armor` on the `items` dict; a dict has no such
attribute, so the condition is always False and the armor_rating subtraction
never executes.  The constant below records that condition explicitly. -/
def inventoryItemsHasAttrArmor : Bool := false

def unequip_item (cat : Catalog) (c : Character) (slot : Slot) :
    Character × Option PyErr :=
  match getSlot c.equipment slot with
  | none => (c, none)
  | some rec =>
    let c1 : Character := { c with equipment := setSlot c.equipment slot none }
    match get_item_by_id cat (some rec.item_id) with
    | .error e => (c1, some e)
    | .ok it =>
      let c2 : Character :=
        { c1 with inventory := c1.inventory.add_item it 1 rec.maker rec.temper }
      if inventoryItemsHasAttrArmor then
        -- dead branch of the source: `attributes.armor_rating -= item["armor"]`
        match it with
        | .armor _ _ a => ({ c2 with attributes := ⟨c2.attributes.armor_rating - a⟩ }, none)
        | _ => (c2, some .keyError)
      else (c2, none)

/-- The final step of `RPG.equip_item`: `inventory.remove_item(_item, 1)`,
which targets the default (None, None) stack and may raise
`ItemNotFoundInInventory` after the equipment was already mutated. -/
def finishEquip (c : Character) (it : CatItem) : Character × Option PyErr :=
  match c.inventory.remove_item it 1 with
  | .error e => (c, some e)
  | .ok inv => ({ c with inventory := inv }, none)

/-- `RPG.equip_item(char, item)` (src/RPG.py lines 1221-1266).

`item` is a stack-record dict sampled from the inventory.  Control flow of
the source, in order: build `item_instance` (drop the count); catalog lookup
by the record's item_id (`ItemNotFound` when the id is the blank `""` or is
absent); compute the category; membership test of the full record in
`inventory.items[category]`, raising `ItemNotFoundInInventory` when it
fails; then the weapon / armor / other branches; finally remove one unit of
the item from the default stack.  Exceptions escaping after mutations leave
the partial state behind (second component `some e` with the first component
holding the state at that moment). -/
def equip_item (cat : Catalog) (c : Character) (item : StackRec) :
    Character × Option PyErr :=
  match get_item_by_id cat item.item_id with
  | .error e => (c, some e)
  | .ok it =>
    let category := get_item_category it
    if item ∈ getCat c.inventory category then
      let inst : EquipRec := ⟨it.item_id, item.maker, item.temper⟩
      match category with
      | .weaponCat =>
        match c.equipment.right_hand with
        | none =>
          finishEquip { c with equipment := { c.equipment with right_hand := some inst } } it
        | some rh =>
          match get_item_by_id cat (some rh.item_id) with
          | .error e => (c, some e)
          | .ok weapon_right =>
            let step1 : Character × Option PyErr :=
              match c.equipment.left_hand with
              | some _ => unequip_item cat c .left_hand
              | none => (c, none)
            match step1 with
            | (c1, some e) => (c1, some e)
            | (c1, none) =>
              let step2 : Character × Option PyErr :=
                match it.getHands with
                | .error e => (c1, some e)
                | .ok hands =>
                  if hands = 2 then unequip_item cat c1 .right_hand
                  else
                    match weapon_right.getHands with
                    | .error e => (c1, some e)
                    | .ok wrHands =>
                      if wrHands = 1 then
                        ({ c1 with equipment := { c1.equipment with left_hand := some rh } },
                         none)
                      else unequip_item cat c1 .right_hand
              match step2 with
              | (c2, some e) => (c2, some e)
              | (c2, none) =>
                finishEquip
                  { c2 with equipment := { c2.equipment with right_hand := some inst } } it
      | .armorCat =>
        match it with
        | .armor _ aslot armorVal =>
          match toSlot aslot with
          | none => (c, some .attributeError)
          | some sl =>
            let step1 : Character × Option PyErr :=
              match getSlot c.equipment sl with
              | some _ => unequip_item cat c sl
              | none => (c, none)
            match step1 with
            | (c1, some e) => (c1, some e)
            | (c1, none) =>
              let c2 : Character := { c1 with equipment := setSlot c1.equipment sl (some inst) }
              let c3 : Character :=
                { c2 with attributes := ⟨c2.attributes.armor_rating + armorVal⟩ }
              finishEquip c3 it
        | _ => (c, some .itemIsNotEquippable)
      | .itemCat => (c, some .itemIsNotEquippable)
    else (c, some .itemNotFoundInInventory)

/-! ## Character-registration wizard: name validation

`RPGCog.char_new`'s inner `name_select` (src/RPGCog.py lines 697-728)
validates a submitted name in three steps, re-prompting the same stage (a
recursive retry of `name_select`) whenever a step rejects:
1. `len(name.content) < 3 or len(name.content) > 25` → reject;
2. `name.content.count(" ") > 2` → reject;
3. `re.match("^[a-zа-яA-ZА-ЯёЁ][a-zA-Zа-яА-ЯёЁ '-]+$", name.content)`
   must succeed → otherwise reject.
`validate_name` returns `true` exactly when the reply is accepted; `false`
means the stage re-prompts.  (The later `RegisterSession.name_select`
revision in src/register_char_session.py instead matches the single pattern
with Latin/Cyrillic letters and whitespace repeated 3 to 25 times and has no
separate space-count limit; the claim's description — apostrophes and
hyphens allowed, at most two spaces — is the validator modelled here.) -/

/-- `name.content.count(" ")`: the number of space characters. -/
def countSpaces (s : String) : Nat :=
  (s.toList.filter (fun ch => ch = ' ')).length

/-- The leading character class `[a-zа-яA-ZА-ЯёЁ]` of the name pattern:
Latin and Cyrillic letters (Cyrillic ranges U+0430-U+044F and
U+0410-U+042F, plus ё/Ё outside those ranges). -/
def isNameLetter (ch : Char) : Bool :=
  (Char.ofNat 97 ≤ ch && ch ≤ Char.ofNat 122) ||
  (Char.ofNat 65 ≤ ch && ch ≤ Char.ofNat 90) ||
  (Char.ofNat 0x430 ≤ ch && ch ≤ Char.ofNat 0x44F) ||
  (Char.ofNat 0x410 ≤ ch && ch ≤ Char.ofNat 0x42F) ||
  ch = Char.ofNat 0x451 || ch = Char.ofNat 0x401

/-- The tail character class `[a-zA-Zа-яА-ЯёЁ '-]`: letters, space,
apostrophe (U+0027), hyphen. -/
def isNameTailChar (ch : Char) : Bool :=
  isNameLetter ch || ch = ' ' || ch = Char.ofNat 39 || ch = '-'

/-- The anchored body of the pattern: one leading letter followed by at
least one tail-class character, consuming the whole input. -/
def nameCore (l : List Char) : Bool :=
  match l with
  | [] => false
  | c :: rest => isNameLetter c && !rest.isEmpty && rest.all isNameTailChar

/-- Python `re.match(pattern + "$", s)` truthiness: `$` matches at the end
of the string or just before one trailing newline. -/
def nameRegexMatch (s : String) : Bool :=
  nameCore s.toList ||
    (s.toList.getLast? == some '\n' && nameCore s.toList.dropLast)

/-- The full acceptance predicate of the name stage (see section comment). -/
def validate_name (s : String) : Bool :=
  if s.length < 3 || 25 < s.length then false
  else if 2 < countSpaces s then false
  else nameRegexMatch s

/-! ## Registration-session registry

`RPG.char_new` (src/RPG.py lines 794-810): refuse with a chat message when
the member already has a character; otherwise, if
`_get_register_session(ctx.author)` finds an open session for the author,
return silently (no message, nothing queued); otherwise start a session and
append it to `self.register_sessions`.  The handler contains no `await`
between the registry lookup and the append, so under the single-threaded
cooperative scheduler the lookup-and-append runs atomically and two
concurrent invocations of the command serialize; sessions are modelled by
their author ids. -/

inductive CharNewResult where
  | alreadyRegistered
  | noop
  | started
deriving DecidableEq, Repr

/-- `RPG._get_register_session` (src/RPG.py lines 1125-1144): first session
whose author matches. -/
def get_register_session (sessions : List Nat) (author : Nat) : Option Nat :=
  sessions.find? (fun s => s == author)

/-- `RPG.char_new`: the registry transition together with the observable
outcome. `registered` is the result of `Character.is_member_registered`. -/
def char_new (sessions : List Nat) (author : Nat) (registered : Bool) :
    List Nat × CharNewResult :=
  if registered then (sessions, .alreadyRegistered)
  else
    match get_register_session sessions author with
    | some _ => (sessions, .noop)
    | none => (sessions ++ [author], .started)

/-! ## Registration completion: `RPG.on_register_end`

src/RPG.py lines 1090-1123.  After removing the session from the registry,
the complete path evaluates `self.InventoryClass({...})`.  `RPG.__init__`
(lines 680-688) assigns only `Red`, `ItemClass`, `CharacterClass`,
`AttributesClass`, `EquipmentClass` and `register_sessions` on the instance,
and no class-level member of `RPG` is named `InventoryClass` either, so the
attribute access raises AttributeError before any character is constructed
or saved. -/

/-- The instance attributes assigned in `RPG.__init__`. -/
def rpg_init_attr_names : List String :=
  ["Red", "ItemClass", "CharacterClass", "AttributesClass", "EquipmentClass",
   "register_sessions"]

/-- The class-level members of `RPG` (methods and command callbacks) that
`getattr` would also find on the instance. -/
def rpg_class_attr_names : List String :=
  ["setup", "change_status", "update_chars", "char", "char_new", "char_cancel",
   "char_delete", "equip", "inventory", "item", "item_new", "item_add",
   "item_remove", "on_register_end", "_get_register_session",
   "get_item_by_name", "get_item_by_id", "get_char_by_id", "unequip_item",
   "equip_item"]

/-- Python attribute lookup on the RPG cog instance. -/
def rpgGetattr (name : String) : Except PyErr Unit :=
  if rpg_init_attr_names.contains name || rpg_class_attr_names.contains name
  then .ok () else .error .attributeError

/-- The `main` attribute map of a race template
(`config.game.races[race].main`), restricted to the keys `restore_values`
reads.  Python stores these as floats; the values are copied verbatim, so
they are modelled as integers without loss for the claims at hand. -/
structure RaceTemplate where
  health_max : Int
  stamina_max : Int
  magicka_max : Int
deriving DecidableEq, Repr

/-- The dynamic part of `Attributes` relevant to registration: the current
health/stamina/magicka (FloatFields defaulting to 10) and the `main` map
supplied by the constructor. -/
structure FullAttributes where
  health : Int
  stamina : Int
  magicka : Int
  main : RaceTemplate
deriving DecidableEq, Repr

/-- The `Attributes(main, resists, skills, unarmed_damage)` constructor:
health/stamina/magicka keep their field defaults of 10. -/
def mkAttributes (main : RaceTemplate) : FullAttributes := ⟨10, 10, 10, main⟩

/-- `Attributes.restore_values` (src/RPG.py lines 529-533): set the current
health/stamina/magicka to `main["health_max"]` / `main["stamina_max"]` /
`main["magicka_max"]`. -/
def restore_values (a : FullAttributes) : FullAttributes :=
  { a with
    health := a.main.health_max
    stamina := a.main.stamina_max
    magicka := a.main.magicka_max }

/-- The five wizard-collected fields plus the completion flag of a
`RegisterSession` at the moment it ends. -/
structure RegSession where
  complete : Bool
  member_id : String
  char_name : String
  race : String
  sex : String
  desc : String
deriving DecidableEq, Repr

/-- The character record `on_register_end` would assemble and persist. -/
structure NewCharacter where
  member_id : String
  char_name : String
  race : String
  sex : String
  desc : String
  attributes : FullAttributes
  inventory : Inventory
  equipment : Equipment
deriving DecidableEq, Repr

/-- `RPG.on_register_end` after the registry removal: `.ok none` when the
session was cancelled, otherwise the complete path.  `templates` models the
read-only `config.game.races` table. -/
def on_register_end (templates : String → RaceTemplate) (s : RegSession) :
    Except PyErr (Option NewCharacter) :=
  if s.complete then
    match rpgGetattr "InventoryClass" with
    | .error e => .error e
    | .ok _ =>
      let attributes := restore_values (mkAttributes (templates s.race))
      .ok (some
        { member_id := s.member_id
          char_name := s.char_name
          race := s.race
          sex := s.sex
          desc := s.desc
          attributes := attributes
          inventory := emptyInventory
          equipment := emptyEquipment })
  else .ok none

/-! ## Spec-side comparator for the armor-rating invariant -/

/-- Stated from the specification, for comparison with the code: the sum of
the `armor` values of the armor items currently occupying the six equipment
slots (non-armor or unresolvable occupants contribute nothing). -/
def specEquippedArmorSum (cat : Catalog) (e : Equipment) : Int :=
  let contrib : Option EquipRec → Int := fun o =>
    match o with
    | none => 0
    | some rec =>
      match get_item_by_id cat (some rec.item_id) with
      | .ok (.armor _ _ a) => a
      | _ => 0
  contrib e.right_hand + contrib e.left_hand + contrib e.helmet +
    contrib e.cuirass + contrib e.gauntlets + contrib e.boots

/-! ## Inventory invariants and reachability -/

/-- Per-category invariant of reachable inventories: every record is either
strictly positive or the blank placeholder, and the blank placeholder occurs
only as the sole element of its category list. -/
def InvariantL (l : List StackRec) : Prop :=
  (∀ r ∈ l, r = blank ∨ 0 < r.count) ∧ (blank ∈ l → l = [blank])

/-- The invariant over all three category lists. -/
def InvariantInv (inv : Inventory) : Prop :=
  InvariantL inv.weaponItems ∧ InvariantL inv.armorItems ∧ InvariantL inv.otherItems

/-- Inventories reachable from the freshly created empty inventory by
`add_item` calls with positive count and successful `remove_item` calls. -/
inductive Reachable : Inventory → Prop where
  | protected empty : Reachable emptyInventory
  | protected add {inv : Inventory} {it : CatItem} {count : Int}
      {maker : Option String} {temper : Option Int} :
      Reachable inv → 0 < count → Reachable (inv.add_item it count maker temper)
  | protected remove {inv inv' : Inventory} {it : CatItem} {count : Int} :
      Reachable inv → inv.remove_item it count = .ok inv' → Reachable inv'

/-- A record matching a `get_item` key carries that key's id. -/
theorem matchesKey_item_id {r : StackRec} {iid : Nat} {m : Option String}
    {t : Option Int} (h : matchesKey r iid m t = true) : r.item_id = some iid := by
  simp only [matchesKey, Bool.and_eq_true, beq_iff_eq] at h
  exact h.1.1

/-- The blank placeholder matches no `get_item` key. -/
theorem blank_matchesKey_false (iid : Nat) (m : Option String) (t : Option Int) :
    matchesKey blank iid m t = false := rfl

/-- Decomposition of a successful `get_item` lookup: the list splits around
the first matching record, and `bumpFirst` rewrites exactly that record. -/
theorem bumpFirst_decomp {l : List StackRec} {iid : Nat} {m : Option String}
    {t : Option Int} {r : StackRec} (h : get_item l iid m t = some r) (d : Int) :
    ∃ l₁ l₂, l = l₁ ++ r :: l₂ ∧
      bumpFirst l iid m t d = l₁ ++ { r with count := r.count + d } :: l₂ := by
  induction l with
  | nil => simp [get_item, List.find?] at h
  | cons a as ih =>
    rw [get_item, List.find?] at h
    cases hk : matchesKey a iid m t with
    | true =>
      rw [hk] at h
      simp only [Option.some.injEq] at h
      subst h
      exact ⟨[], as, by simp, by simp [bumpFirst, hk]⟩
    | false =>
      rw [hk] at h
      obtain ⟨l₁, l₂, hl, hb⟩ := ih h
      exact ⟨a :: l₁, l₂, by simp [hl], by simp [bumpFirst, hk, hb]⟩

/-- A failed `get_item` lookup means no record matches. -/
theorem get_item_eq_none_iff {l : List StackRec} {iid : Nat} {m : Option String}
    {t : Option Int} :
    get_item l iid m t = none ↔ ∀ r ∈ l, matchesKey r iid m t = false := by
  simp [get_item, List.find?_eq_none]

/-- A successful `get_item` lookup returns a record matching the key. -/
theorem get_item_some_key {l : List StackRec} {iid : Nat} {m : Option String}
    {t : Option Int} {r : StackRec} (h : get_item l iid m t = some r) :
    matchesKey r iid m t = true := by
  rw [get_item] at h
  have h2 := List.find?_some h
  simpa using h2

/-- A successful `get_item` lookup returns a member of the list. -/
theorem get_item_some_mem {l : List StackRec} {iid : Nat} {m : Option String}
    {t : Option Int} {r : StackRec} (h : get_item l iid m t = some r) : r ∈ l := by
  rw [get_item] at h
  exact List.mem_of_find?_eq_some h

/-- Pruned lists satisfy the per-category invariant. -/
theorem invariantL_prune (l : List StackRec) : InvariantL (prune l) := by
  constructor
  · intro r hr
    right
    simp only [prune, List.mem_filter, decide_eq_true_eq] at hr
    exact hr.2
  · intro hb
    simp [prune, List.mem_filter, blank] at hb

/-- The singleton blank list satisfies the per-category invariant. -/
theorem invariantL_blankList : InvariantL [blank] := by
  constructor
  · intro r hr
    left
    simpa using hr
  · intro _
    rfl

/-- `add_item` with positive count preserves the per-category invariant. -/
theorem invariantL_add {l : List StackRec} {iid : Nat} {count : Int}
    {maker : Option String} {temper : Option Int} (hc : 0 < count)
    (h : InvariantL l) : InvariantL (add_item l iid count maker temper) := by
  rw [add_item]
  cases hfind : get_item l iid none none with
  | none => exact invariantL_prune _
  | some r =>
    obtain ⟨l₁, l₂, hl, hb⟩ := bumpFirst_decomp hfind count
    have hid : r.item_id = some iid := matchesKey_item_id (get_item_some_key hfind)
    have hrmem : r ∈ l := get_item_some_mem hfind
    have hrblank : r ≠ blank := by
      intro he
      rw [he] at hid
      simp [blank] at hid
    have hrpos : 0 < r.count := by
      rcases h.1 r hrmem with h' | h'
      · exact absurd h' hrblank
      · exact h'
    rw [hb]
    constructor
    · intro x hx
      rcases List.mem_append.1 hx with hx | hx
      · exact h.1 x (by rw [hl]; exact List.mem_append_left _ hx)
      · rcases List.mem_cons.1 hx with hx | hx
        · right
          rw [hx]
          exact add_pos hrpos hc
        · exact h.1 x (by rw [hl]; exact List.mem_append_right _ (List.mem_cons_of_mem _ hx))
    · intro hbmem
      exfalso
      have hbl : blank ∈ l ∨ blank = { r with count := r.count + count } := by
        rcases List.mem_append.1 hbmem with hx | hx
        · exact Or.inl (by rw [hl]; exact List.mem_append_left _ hx)
        · rcases List.mem_cons.1 hx with hx | hx
          · exact Or.inr hx
          · exact Or.inl
              (by rw [hl]; exact List.mem_append_right _ (List.mem_cons_of_mem _ hx))
      rcases hbl with hbl | hbl
      · have hsing := h.2 hbl
        rw [hsing] at hrmem
        exact hrblank (List.mem_singleton.1 hrmem)
      · have : blank.item_id = r.item_id := by rw [hbl]
        rw [hid] at this
        simp [blank] at this

/-- Successful `remove_item` preserves the per-category invariant. -/
theorem invariantL_remove {l l' : List StackRec} {iid : Nat} {count : Int}
    (h : InvariantL l) (hr : remove_item l iid count = .ok l') : InvariantL l' := by
  rw [remove_item] at hr
  cases hfind : get_item l iid none none with
  | none => rw [hfind] at hr; cases hr
  | some r =>
    rw [hfind] at hr
    simp only at hr
    split at hr
    · split at hr
      · injection hr with hr
        subst hr
        exact invariantL_blankList
      · injection hr with hr
        subst hr
        exact invariantL_prune _
    · rename_i hge
      injection hr with hr
      subst hr
      obtain ⟨l₁, l₂, hl, hb⟩ := bumpFirst_decomp hfind (-count)
      have hid : r.item_id = some iid := matchesKey_item_id (get_item_some_key hfind)
      have hrmem : r ∈ l := get_item_some_mem hfind
      have hrblank : r ≠ blank := by
        intro he
        rw [he] at hid
        simp [blank] at hid
      have hnewpos : 0 < r.count + -count := by omega
      rw [hb]
      constructor
      · intro x hx
        rcases List.mem_append.1 hx with hx | hx
        · exact h.1 x (by rw [hl]; exact List.mem_append_left _ hx)
        · rcases List.mem_cons.1 hx with hx | hx
          · right
            rw [hx]
            exact hnewpos
          · exact h.1 x
              (by rw [hl]; exact List.mem_append_right _ (List.mem_cons_of_mem _ hx))
      · intro hbmem
        exfalso
        have hbl : blank ∈ l ∨ blank = { r with count := r.count + -count } := by
          rcases List.mem_append.1 hbmem with hx | hx
          · exact Or.inl (by rw [hl]; exact List.mem_append_left _ hx)
          · rcases List.mem_cons.1 hx with hx | hx
            · exact Or.inr hx
            · exact Or.inl
                (by rw [hl]; exact List.mem_append_right _ (List.mem_cons_of_mem _ hx))
        rcases hbl with hbl | hbl
        · have hsing := h.2 hbl
          rw [hsing] at hrmem
          exact hrblank (List.mem_singleton.1 hrmem)
        · have : blank.item_id = r.item_id := by rw [hbl]
          rw [hid] at this
          simp [blank] at this

/-! ## Observable stack totals per item id -/

/-- Total stacked quantity of a given catalog item id across a category
list (all makers/tempers); the blank placeholder contributes nothing. -/
def countOfId (l : List StackRec) (j : Nat) : Int :=
  (l.map (fun r => if r.item_id = some j then r.count else 0)).sum

theorem countOfId_nil (j : Nat) : countOfId [] j = 0 := rfl

theorem countOfId_cons (r : StackRec) (l : List StackRec) (j : Nat) :
    countOfId (r :: l) j =
      (if r.item_id = some j then r.count else 0) + countOfId l j := by
  simp [countOfId]

theorem countOfId_append (l₁ l₂ : List StackRec) (j : Nat) :
    countOfId (l₁ ++ l₂) j = countOfId l₁ j + countOfId l₂ j := by
  simp [countOfId]

/-- `bumpFirst` on a list where the key is present shifts the id total by
`d` (for the key's own id) and leaves other ids untouched. -/
theorem countOfId_bumpFirst {l : List StackRec} {iid : Nat} {m : Option String}
    {t : Option Int} {r : StackRec} (h : get_item l iid m t = some r) (d : Int)
    (j : Nat) :
    countOfId (bumpFirst l iid m t d) j =
      countOfId l j + (if iid = j then d else 0) := by
  obtain ⟨l₁, l₂, hl, hb⟩ := bumpFirst_decomp h d
  have hid : r.item_id = some iid := matchesKey_item_id (get_item_some_key h)
  rw [hb, hl, countOfId_append, countOfId_append, countOfId_cons, countOfId_cons]
  show countOfId l₁ j + ((if r.item_id = some j then r.count + d else 0) + countOfId l₂ j) =
    countOfId l₁ j + ((if r.item_id = some j then r.count else 0) + countOfId l₂ j) +
      (if iid = j then d else 0)
  by_cases hj : iid = j
  · subst hj
    rw [hid, if_pos rfl, if_pos rfl, if_pos rfl]
    ring
  · have hne : r.item_id ≠ some j := by
      rw [hid]
      intro heq
      exact hj (Option.some.inj heq)
    rw [if_neg hne, if_neg hne, if_neg hj]
    ring

/-- Pruning does not change an id total as long as every non-positive
record carries a different id. -/
theorem countOfId_prune_of {l : List StackRec} {j : Nat}
    (h : ∀ r ∈ l, r.count ≤ 0 → r.item_id ≠ some j) :
    countOfId (prune l) j = countOfId l j := by
  induction l with
  | nil => rfl
  | cons a as ih =>
    rw [countOfId_cons]
    by_cases ha : 0 < a.count
    · rw [prune, List.filter_cons_of_pos (by simpa using ha), ← prune, countOfId_cons,
        ih (fun r hr => h r (List.mem_cons_of_mem _ hr))]
    · rw [prune, List.filter_cons_of_neg (by simpa using ha), ← prune,
        ih (fun r hr => h r (List.mem_cons_of_mem _ hr))]
      have : a.item_id ≠ some j := h a (List.mem_cons_self _ _) (by omega)
      rw [if_neg this]
      ring

/-- `add_item` with positive count raises the added item's id total by the
count and leaves every other id total unchanged, for lists satisfying the
per-category invariant. -/
theorem countOfId_add_item (l : List StackRec) (iid : Nat) (cnt : Int)
    (m : Option String) (t : Option Int) (hInv : InvariantL l) (hc : 0 < cnt)
    (j : Nat) :
    countOfId (add_item l iid cnt m t) j =
      countOfId l j + (if iid = j then cnt else 0) := by
  rw [add_item]
  cases hfind : get_item l iid none none with
  | some r => exact countOfId_bumpFirst hfind cnt j
  | none =>
    have hmem : ∀ r ∈ l ++ [(⟨some iid, cnt, m, t⟩ : StackRec)],
        r.count ≤ 0 → r.item_id ≠ some j := by
      intro r hr hle
      rcases List.mem_append.1 hr with hr | hr
      · rcases hInv.1 r hr with h' | h'
        · rw [h']
          simp [blank]
        · omega
      · rcases List.mem_singleton.1 hr with rfl
        simp at hle
        omega
    rw [countOfId_prune_of hmem, countOfId_append, countOfId_cons, countOfId_nil]
    by_cases hj : iid = j
    · subst hj
      simp
    · have : some iid ≠ some j := by simpa using hj
      simp [if_neg this, if_neg hj]

/-- Successful `remove_item` leaves the id totals of every other item id
unchanged, for lists satisfying the per-category invariant. -/
theorem countOfId_remove_item_ne {l l' : List StackRec} {iid : Nat} {cnt : Int}
    {j : Nat} (hInv : InvariantL l) (hr : remove_item l iid cnt = .ok l')
    (hne : iid ≠ j) : countOfId l' j = countOfId l j := by
  rw [remove_item] at hr
  cases hfind : get_item l iid none none with
  | none => rw [hfind] at hr; cases hr
  | some r =>
    rw [hfind] at hr
    simp only at hr
    have hbump := countOfId_bumpFirst hfind (-cnt) j
    rw [if_neg hne, add_zero] at hbump
    have hmem : ∀ x ∈ bumpFirst l iid none none (-cnt),
        x.count ≤ 0 → x.item_id ≠ some j := by
      intro x hx hle
      obtain ⟨l₁, l₂, hl, hb⟩ := bumpFirst_decomp hfind (-cnt)
      rw [hb] at hx
      have hid : r.item_id = some iid := matchesKey_item_id (get_item_some_key hfind)
      rcases List.mem_append.1 hx with hx | hx
      · have hxl : x ∈ l := by rw [hl]; exact List.mem_append_left _ hx
        rcases hInv.1 x hxl with h' | h'
        · rw [h']
          simp [blank]
        · omega
      · rcases List.mem_cons.1 hx with hx | hx
        · rw [hx]
          show r.item_id ≠ some j
          rw [hid]
          intro heq
          exact hne (Option.some.inj heq)
        · have hxl : x ∈ l := by
            rw [hl]
            exact List.mem_append_right _ (List.mem_cons_of_mem _ hx)
          rcases hInv.1 x hxl with h' | h'
          · rw [h']
            simp [blank]
          · omega
    split at hr
    · split at hr
      · injection hr with hr
        subst hr
        rename_i hcond hlen
        have hprune := countOfId_prune_of hmem
        rw [hbump] at hprune
        have hempty : prune (bumpFirst l iid none none (-cnt)) = [] :=
          List.eq_nil_of_length_eq_zero (by omega)
        rw [hempty, countOfId_nil] at hprune
        have hbl : countOfId [blank] j = 0 := by simp [countOfId, blank]
        rw [hbl]
        exact hprune
      · injection hr with hr
        subst hr
        rw [countOfId_prune_of hmem, hbump]
    · injection hr with hr
      subst hr
      exact hbump

/-! ## Inventory-level invariant preservation -/

theorem invariantL_nil : InvariantL [] := ⟨by simp, by simp⟩

theorem invariantInv_empty : InvariantInv emptyInventory :=
  ⟨invariantL_nil, invariantL_nil, invariantL_nil⟩

theorem invariantInv_add {inv : Inventory} {it : CatItem} {cnt : Int}
    {m : Option String} {t : Option Int} (h : InvariantInv inv) (hc : 0 < cnt) :
    InvariantInv (inv.add_item it cnt m t) := by
  obtain ⟨h1, h2, h3⟩ := h
  rw [Inventory.add_item]
  cases hcat : get_item_category it
  · exact ⟨invariantL_add hc h1, h2, h3⟩
  · exact ⟨h1, invariantL_add hc h2, h3⟩
  · exact ⟨h1, h2, invariantL_add hc h3⟩

theorem invariantInv_remove {inv inv' : Inventory} {it : CatItem} {cnt : Int}
    (h : InvariantInv inv) (hr : inv.remove_item it cnt = .ok inv') :
    InvariantInv inv' := by
  obtain ⟨h1, h2, h3⟩ := h
  rw [Inventory.remove_item] at hr
  cases hcat : get_item_category it <;> rw [hcat] at hr <;>
    simp only [getCat] at hr
  · cases hrem : RPG.remove_item inv.weaponItems it.item_id cnt with
    | error e => rw [hrem] at hr; cases hr
    | ok l =>
      rw [hrem] at hr
      injection hr with hr
      subst hr
      exact ⟨invariantL_remove h1 hrem, h2, h3⟩
  · cases hrem : RPG.remove_item inv.armorItems it.item_id cnt with
    | error e => rw [hrem] at hr; cases hr
    | ok l =>
      rw [hrem] at hr
      injection hr with hr
      subst hr
      exact ⟨h1, invariantL_remove h2 hrem, h3⟩
  · cases hrem : RPG.remove_item inv.otherItems it.item_id cnt with
    | error e => rw [hrem] at hr; cases hr
    | ok l =>
      rw [hrem] at hr
      injection hr with hr
      subst hr
      exact ⟨h1, h2, invariantL_remove h3 hrem⟩

/-- Every inventory reachable by positive-count `add_item` and successful
`remove_item` from the empty inventory satisfies the invariant. -/
theorem reachable_invariant {inv : Inventory} (h : Reachable inv) :
    InvariantInv inv := by
  induction h with
  | empty => exact invariantInv_empty
  | add _ hc ih => exact invariantInv_add ih hc
  | remove _ hr ih => exact invariantInv_remove ih hr

/-! ## Auxiliary facts for the claims -/

/-- `get_item_by_id` fails only with `ItemNotFound`. -/
theorem get_item_by_id_error {cat : Catalog} {o : Option Nat} {e : PyErr}
    (h : get_item_by_id cat o = .error e) : e = .itemNotFound := by
  cases o with
  | none =>
    simp only [get_item_by_id] at h
    injection h with h
    exact h.symm
  | some i =>
    simp only [get_item_by_id] at h
    cases hf : cat.find? (fun it => it.item_id == i) with
    | some it => rw [hf] at h; cases h
    | none =>
      rw [hf] at h
      injection h with h
      exact h.symm

/-- Under the per-category invariant: the head of a category list has
positive count exactly when some record of the list does. -/
theorem headPositive_iff {l : List StackRec} (h : InvariantL l) :
    headPositive l = true ↔ ∃ r ∈ l, 0 < r.count := by
  cases l with
  | nil => simp [headPositive]
  | cons a as =>
    simp only [headPositive, List.head?_cons, decide_eq_true_eq]
    constructor
    · intro ha
      exact ⟨a, List.mem_cons_self _ _, ha⟩
    · rintro ⟨r, hr, hpos⟩
      by_contra hna
      have hablank : a = blank := by
        rcases h.1 a (List.mem_cons_self _ _) with h' | h'
        · exact h'
        · exact absurd h' hna
      have hbmem : blank ∈ a :: as := by
        rw [← hablank]
        exact List.mem_cons_self _ _
      have hsing := h.2 hbmem
      rw [hsing] at hr
      have : r = blank := List.mem_singleton.1 hr
      rw [this] at hpos
      simp [blank] at hpos

/-- Some category of the inventory contains a record with positive count. -/
def hasPositiveStack (inv : Inventory) : Prop :=
  ∃ r, (r ∈ inv.weaponItems ∨ r ∈ inv.armorItems ∨ r ∈ inv.otherItems) ∧ 0 < r.count

/-! ## Shared concrete examples -/

/-- Example catalog: one helmet with armor rating 5. -/
def exArmorCatalog : Catalog := [.armor 0 .helmet 5]

/-- Example character: one unit of the helmet in the armor category (default
maker/temper), nothing equipped, armor_rating 0. -/
def exArmorChar : Character :=
  ⟨⟨[], [⟨some 0, 1, none, none⟩], []⟩, ⟨0⟩, emptyEquipment⟩

/-- Example character whose only helmet stack carries a non-default maker. -/
def exBobChar : Character :=
  ⟨⟨[], [⟨some 0, 1, some "Bob", none⟩], []⟩, ⟨0⟩, emptyEquipment⟩

/-! ## Claim theorems -/

/-- C3: whenever a registration session ends with all four stages validated
(`complete = true`), `on_register_end` does NOT construct and persist a
Character: it raises AttributeError at `self.InventoryClass`, an attribute
never assigned by `RPG.__init__` and absent from the class, so the
documented construct-and-save path is unreachable.  (This settles C3 as a
code bug: the evaluation of the completion path at any complete session
yields the AttributeError instead of the persisted character.) -/
theorem claim_C3_completion_crashes (templates : String → RaceTemplate)
    (s : RegSession) (h : s.complete = true) :
    on_register_end templates s = .error .attributeError := by
  rw [on_register_end, h]
  rfl

/-- Witness for C3 at a concrete complete session. -/
theorem claim_C3_completion_crashes_witness :
    (⟨true, "1", "Abc", "argonian", "male", "a description"⟩ : RegSession).complete
        = true ∧
    on_register_end (fun _ => ⟨100, 100, 100⟩)
        ⟨true, "1", "Abc", "argonian", "male", "a description"⟩
      = .error .attributeError :=
  ⟨rfl, claim_C3_completion_crashes (fun _ => ⟨100, 100, 100⟩)
    ⟨true, "1", "Abc", "argonian", "male", "a description"⟩ rfl⟩

/-- C7: starting from an inventory satisfying the stack invariant, after any
`add_item` with positive count and after any successful `remove_item`, every
retained stack record has count > 0 except the blank placeholder
`{item_id: "", count: 0}`, which occurs only as the sole element of its
category list (the state pruning leaves when it empties a category) and is
distinguishable from real stacks by its empty id and zero count. -/
theorem claim_C7_stack_positivity (inv : Inventory) (it : CatItem) (cnt : Int)
    (m : Option String) (t : Option Int) (h : InvariantInv inv) :
    (0 < cnt → InvariantInv (inv.add_item it cnt m t)) ∧
    (∀ inv', inv.remove_item it cnt = .ok inv' → InvariantInv inv') :=
  ⟨fun hc => invariantInv_add h hc, fun _ hr => invariantInv_remove h hr⟩

/-- Witness for C7: concrete add into the empty inventory. -/
theorem claim_C7_stack_positivity_witness :
    InvariantInv emptyInventory ∧
      InvariantInv (emptyInventory.add_item (.weapon 1 1) 2 none none) :=
  ⟨invariantInv_empty,
   (claim_C7_stack_positivity emptyInventory (.weapon 1 1) 2 none none
      invariantInv_empty).1 (by norm_num)⟩

/-- C9: in the name stage, every reply of length 2 is rejected (re-prompting
the stage), every reply of length 26 is rejected, every reply containing
more than two space characters (in particular one with 3 internal spaces) is
rejected, while the length-3 name "abc" and the two-internal-space name
"a b c" are accepted. -/
theorem claim_C9_name_validation :
    (∀ s : String, s.length = 2 → validate_name s = false) ∧
    (∀ s : String, s.length = 26 → validate_name s = false) ∧
    (∀ s : String, 2 < countSpaces s → validate_name s = false) ∧
    validate_name "abc" = true ∧
    validate_name "a b c" = true := by
  refine ⟨?_, ?_, ?_, by decide, by decide⟩
  · intro s h
    simp [validate_name, h]
  · intro s h
    simp [validate_name, h]
  · intro s h
    simp [validate_name, h]

/-- Witness for C9 at concrete rejected strings. -/
theorem claim_C9_name_validation_witness :
    validate_name "ab" = false ∧
    validate_name "abcdefghijklmnopqrstuvwxyz" = false ∧
    validate_name "a b c d" = false :=
  ⟨claim_C9_name_validation.1 "ab" (by decide),
   claim_C9_name_validation.2.1 "abcdefghijklmnopqrstuvwxyz" (by decide),
   claim_C9_name_validation.2.2.1 "a b c d" (by decide)⟩

/-- C10: on every inventory reachable from the empty inventory by
positive-count `add_item` and successful `remove_item` calls,
`is_inventory_empty` returns True exactly when no category contains a record
with positive count, even though it inspects only the first record of each
category list. -/
theorem claim_C10_is_inventory_empty {inv : Inventory} (h : Reachable inv) :
    is_inventory_empty inv = true ↔ ¬ hasPositiveStack inv := by
  obtain ⟨h1, h2, h3⟩ := reachable_invariant h
  constructor
  · intro hb hp
    obtain ⟨r, hm, hpos⟩ := hp
    have hb' : (headPositive inv.weaponItems = false ∧
        headPositive inv.armorItems = false) ∧
        headPositive inv.otherItems = false := by
      simpa [is_inventory_empty] using hb
    rcases hm with hm | hm | hm
    · have := (headPositive_iff h1).2 ⟨r, hm, hpos⟩
      rw [hb'.1.1] at this
      cases this
    · have := (headPositive_iff h2).2 ⟨r, hm, hpos⟩
      rw [hb'.1.2] at this
      cases this
    · have := (headPositive_iff h3).2 ⟨r, hm, hpos⟩
      rw [hb'.2] at this
      cases this
  · intro hnp
    have w : headPositive inv.weaponItems = false := by
      cases hw : headPositive inv.weaponItems with
      | false => rfl
      | true =>
        obtain ⟨r, hm, hpos⟩ := (headPositive_iff h1).1 hw
        exact absurd ⟨r, Or.inl hm, hpos⟩ hnp
    have a : headPositive inv.armorItems = false := by
      cases ha : headPositive inv.armorItems with
      | false => rfl
      | true =>
        obtain ⟨r, hm, hpos⟩ := (headPositive_iff h2).1 ha
        exact absurd ⟨r, Or.inr (Or.inl hm), hpos⟩ hnp
    have o : headPositive inv.otherItems = false := by
      cases ho : headPositive inv.otherItems with
      | false => rfl
      | true =>
        obtain ⟨r, hm, hpos⟩ := (headPositive_iff h3).1 ho
        exact absurd ⟨r, Or.inr (Or.inr hm), hpos⟩ hnp
    simp [is_inventory_empty, w, a, o]

/-- Witness for C10 at the empty inventory. -/
theorem claim_C10_is_inventory_empty_witness :
    is_inventory_empty emptyInventory = true ↔ ¬ hasPositiveStack emptyInventory :=
  claim_C10_is_inventory_empty Reachable.empty

/-- C8: the open-session registry admits at most one session per user: any
`char new` invocation preserves "at most one session per user"; when a
session for the author is already open the registry is left unchanged (and,
for an unregistered author, the outcome is a silent no-op rather than an
error or queueing); and two successive invocations by a session-less,
character-less user leave exactly one open session, the second being a
no-op.  (The handler has no suspension point between the registry lookup and
the append, so consecutive execution models two concurrent invocations under
the cooperative single-threaded scheduler.) -/
theorem claim_C8_single_session (sessions : List Nat) (author : Nat) :
    (∀ (registered : Bool) (u : Nat), sessions.count u ≤ 1 →
      (char_new sessions author registered).1.count u ≤ 1) ∧
    (∀ registered : Bool, get_register_session sessions author ≠ none →
      (char_new sessions author registered).1 = sessions) ∧
    (sessions.count author = 0 →
      char_new sessions author false = (sessions ++ [author], .started) ∧
      (sessions ++ [author]).count author = 1 ∧
      char_new (sessions ++ [author]) author false = (sessions ++ [author], .noop)) := by
  refine ⟨?_, ?_, ?_⟩
  · intro registered u hu
    rw [char_new]
    split
    · exact hu
    · cases hf : get_register_session sessions author with
      | some s => exact hu
      | none =>
        simp only
        have hnotmem : author ∉ sessions := by
          rw [get_register_session] at hf
          intro hmem
          have := List.find?_eq_none.1 hf author hmem
          simp at this
        rw [List.count_append]
        by_cases hau : u = author
        · subst hau
          have h0 : sessions.count u = 0 := List.count_eq_zero.2 hnotmem
          rw [h0]
          simp
        · have h1 : List.count u [author] = 0 := by
            rw [List.count_eq_zero]
            simp [hau]
          omega
  · intro registered hne
    rw [char_new]
    split
    · rfl
    · cases hf : get_register_session sessions author with
      | some s => rfl
      | none => exact absurd hf hne
  · intro h0
    have hnotmem : author ∉ sessions := List.count_eq_zero.1 h0
    have hf : get_register_session sessions author = none := by
      rw [get_register_session, List.find?_eq_none]
      intro x hx hbeq
      exact hnotmem (by rw [← eq_of_beq hbeq]; exact hx)
    refine ⟨?_, ?_, ?_⟩
    · rw [char_new]
      simp only [Bool.false_eq_true, if_false, hf]
    · rw [List.count_append, h0]
      simp
    · have hmem2 : author ∈ sessions ++ [author] := by simp
      have hsome : (List.find? (fun s => s == author) (sessions ++ [author])).isSome :=
        List.find?_isSome.2 ⟨author, hmem2, by simp⟩
      obtain ⟨v, hv⟩ := Option.isSome_iff_exists.1 hsome
      rw [char_new]
      simp only [Bool.false_eq_true, if_false, get_register_session, hv]

/-- Witness for C8 with a fresh user against the empty registry. -/
theorem claim_C8_single_session_witness :
    ([] : List Nat).count 7 = 0 ∧
    char_new [] 7 false = ([7], .started) ∧
    ([7] : List Nat).count 7 = 1 ∧
    char_new [7] 7 false = ([7], .noop) := by
  have h := (claim_C8_single_session [] 7).2.2 (by decide)
  exact ⟨by decide, h.1, h.2.1, h.2.2⟩

/-- C2 is a code bug: starting from a state satisfying the armor-rating
invariant (rating 0, nothing equipped), equipping the example helmet and
unequipping it again is a reachable two-step sequence after which
`attributes.armor_rating` is 5 while the sum of the armor values of the
equipped armor items is 0 — `unequip_item` never subtracts because its
condition `hasattr(inventory.items, "armor")` tests the items dict instead
of the item and is always False, contradicting the method's documented
behavior of adjusting the attributes. -/
theorem claim_C2_armor_rating_bug_eval :
    (equip_item exArmorCatalog exArmorChar ⟨some 0, 1, none, none⟩).2 = none ∧
    (unequip_item exArmorCatalog
        (equip_item exArmorCatalog exArmorChar ⟨some 0, 1, none, none⟩).1
        .helmet).2 = none ∧
    exArmorChar.attributes.armor_rating
        = specEquippedArmorSum exArmorCatalog exArmorChar.equipment ∧
    (unequip_item exArmorCatalog
        (equip_item exArmorCatalog exArmorChar ⟨some 0, 1, none, none⟩).1
        .helmet).1.attributes.armor_rating = 5 ∧
    specEquippedArmorSum exArmorCatalog
        (unequip_item exArmorCatalog
          (equip_item exArmorCatalog exArmorChar ⟨some 0, 1, none, none⟩).1
          .helmet).1.equipment = 0 := by
  decide

/-- Counterexample to C1 as stated: for the example character holding one
helmet (armor 5) with both the slot and the rating at their initial values,
the equip/unequip round trip through the helmet slot succeeds and restores
the inventory, but the armor rating ends at 5 instead of its pre-equip value
0. -/
theorem claim_C1_counterexample :
    (equip_item exArmorCatalog exArmorChar ⟨some 0, 1, none, none⟩).2 = none ∧
    (unequip_item exArmorCatalog
        (equip_item exArmorCatalog exArmorChar ⟨some 0, 1, none, none⟩).1
        .helmet).2 = none ∧
    (unequip_item exArmorCatalog
        (equip_item exArmorCatalog exArmorChar ⟨some 0, 1, none, none⟩).1
        .helmet).1.inventory = exArmorChar.inventory ∧
    (unequip_item exArmorCatalog
        (equip_item exArmorCatalog exArmorChar ⟨some 0, 1, none, none⟩).1
        .helmet).1.attributes.armor_rating ≠ exArmorChar.attributes.armor_rating := by
  decide

/-- Counterexample to C4 as stated: adding one maker-"Bob" unit of item 0 to
an inventory holding only the default (maker None) stack of item 0 does not
append a new (0, "Bob", None) stack — the lookup ignores the maker, so the
default stack is incremented to 2 and no record with maker "Bob" exists
afterwards. -/
theorem claim_C4_counterexample :
    add_item [⟨some 0, 1, none, none⟩] 0 1 (some "Bob") none
        = [⟨some 0, 2, none, none⟩] ∧
    ¬ ∃ r ∈ add_item [⟨some 0, 1, none, none⟩] 0 1 (some "Bob") none,
        r.maker = some "Bob" := by
  decide

/-- Counterexample to C5 as stated: equipping the helmet stack whose maker
is "Bob" (the only stack of that item) raises ItemNotFoundInInventory from
the final remove-one-unit step — which looks up the default-maker stack —
AFTER the helmet slot and the armor rating were already mutated, so the
aggregate is not left as it was before the call. -/
theorem claim_C5_counterexample :
    (equip_item exArmorCatalog exBobChar ⟨some 0, 1, some "Bob", none⟩).2
        = some .itemNotFoundInInventory ∧
    (equip_item exArmorCatalog exBobChar ⟨some 0, 1, some "Bob", none⟩).1
        ≠ exBobChar := by
  decide

/-- C4, amended: `add_item` locates the existing stack by
(item id, None, None) — the passed maker and temper are ignored during the
lookup.  If such a default stack exists, its count is incremented by `count`
(so the total for the item id always grows by `count`), the list keeps its
length, and no new record carrying the passed maker/temper is created;
otherwise a new stack with that maker, temper and count is appended and
non-positive stacks are pruned (pruning runs only in this append branch).
Totals of other ids never change, and the stack invariant is preserved for
positive counts. -/
theorem claim_C4_amended (l : List StackRec) (iid : Nat) (cnt : Int)
    (m : Option String) (t : Option Int) (hInv : InvariantL l) (hc : 0 < cnt) :
    countOfId (add_item l iid cnt m t) iid = countOfId l iid + cnt ∧
    (∀ j, iid ≠ j → countOfId (add_item l iid cnt m t) j = countOfId l j) ∧
    (∀ r, get_item l iid none none = some r →
      (add_item l iid cnt m t).length = l.length ∧
      ∀ x ∈ add_item l iid cnt m t, x ∈ l ∨ x = { r with count := r.count + cnt }) ∧
    (get_item l iid none none = none →
      add_item l iid cnt m t = prune (l ++ [⟨some iid, cnt, m, t⟩])) ∧
    InvariantL (add_item l iid cnt m t) := by
  refine ⟨?_, ?_, ?_, ?_, invariantL_add hc hInv⟩
  · have h := countOfId_add_item l iid cnt m t hInv hc iid
    simpa using h
  · intro j hj
    have h := countOfId_add_item l iid cnt m t hInv hc j
    rw [if_neg hj, add_zero] at h
    exact h
  · intro r hfind
    obtain ⟨l₁, l₂, hl, hb⟩ := bumpFirst_decomp hfind cnt
    have hadd : add_item l iid cnt m t = bumpFirst l iid none none cnt := by
      simp only [add_item, hfind]
    constructor
    · rw [hadd, hb, hl]
      simp
    · intro x hx
      rw [hadd, hb] at hx
      rcases List.mem_append.1 hx with hx | hx
      · exact Or.inl (by rw [hl]; exact List.mem_append_left _ hx)
      · rcases List.mem_cons.1 hx with hx | hx
        · exact Or.inr hx
        · exact Or.inl
            (by rw [hl]; exact List.mem_append_right _ (List.mem_cons_of_mem _ hx))
  · intro hfind
    simp only [add_item, hfind]

/-- Witness for the amended C4: a maker-carrying add against an existing
default stack. -/
theorem claim_C4_amended_witness :
    InvariantL [(⟨some 0, 1, none, none⟩ : StackRec)] ∧
    countOfId (add_item [⟨some 0, 1, none, none⟩] 0 1 (some "Bob") none) 0
      = countOfId [(⟨some 0, 1, none, none⟩ : StackRec)] 0 + 1 :=
  ⟨by unfold InvariantL; decide,
   (claim_C4_amended [⟨some 0, 1, none, none⟩] 0 1 (some "Bob") none
      (by unfold InvariantL; decide) (by decide)).1⟩

/-- C5, amended: the pre-mutation checks do leave the aggregate unchanged —
`equip_item` returns the character untouched when the membership re-check
fails (ItemNotFoundInInventory) and when the item's category is neither
Weapon nor Armor (ItemIsNotEquippable); `remove_item` raises
ItemNotFoundInInventory only from its initial lookup, before any mutation;
and `unequip_item` never raises either of those two exceptions.  However —
per the counterexample — `equip_item`'s final remove-one-unit step can raise
ItemNotFoundInInventory again, after the equipment and armor-rating
mutations, whenever the equipped stack record is not the default
(maker None, temper None) stack; that late failure leaves the partial
mutation behind. -/
theorem claim_C5_amended (cat : Catalog) (c : Character) (s : StackRec)
    (it : CatItem) (sl : Slot) (l : List StackRec) (iid : Nat) (cnt : Int) :
    (get_item_by_id cat s.item_id = .ok it →
      s ∉ getCat c.inventory (get_item_category it) →
      equip_item cat c s = (c, some .itemNotFoundInInventory)) ∧
    (get_item_by_id cat s.item_id = .ok it → get_item_category it = .itemCat →
      s ∈ getCat c.inventory (get_item_category it) →
      equip_item cat c s = (c, some .itemIsNotEquippable)) ∧
    (∀ e, remove_item l iid cnt = .error e →
      e = .itemNotFoundInInventory ∧ get_item l iid none none = none) ∧
    (∀ e, (unequip_item cat c sl).2 = some e → e = .itemNotFound) := by
  refine ⟨?_, ?_, ?_, ?_⟩
  · intro hok hmem
    simp only [equip_item, hok]
    rw [if_neg hmem]
  · intro hok hcat hmem
    rw [hcat] at hmem
    simp only [equip_item, hok, hcat]
    rw [if_pos hmem]
  · intro e herr
    rw [remove_item] at herr
    cases hfind : get_item l iid none none with
    | none =>
      rw [hfind] at herr
      injection herr with herr
      exact ⟨herr.symm, rfl⟩
    | some r =>
      rw [hfind] at herr
      simp only at herr
      split at herr
      · split at herr <;> cases herr
      · cases herr
  · intro e herr
    rw [unequip_item] at herr
    cases hslot : getSlot c.equipment sl with
    | none =>
      rw [hslot] at herr
      cases herr
    | some rec =>
      rw [hslot] at herr
      simp only at herr
      cases hlook : get_item_by_id cat (some rec.item_id) with
      | error e2 =>
        rw [hlook] at herr
        simp only at herr
        injection herr with herr
        rw [← herr]
        exact get_item_by_id_error hlook
      | ok it2 =>
        rw [hlook] at herr
        simp [inventoryItemsHasAttrArmor] at herr

/-- Witness for the amended C5: the membership failure path at a concrete
character with an empty inventory. -/
theorem claim_C5_amended_witness :
    get_item_by_id exArmorCatalog (some 0) = .ok (.armor 0 .helmet 5) ∧
    ((⟨some 0, 1, none, none⟩ : StackRec) ∉
      getCat (emptyInventory) (get_item_category (.armor 0 .helmet 5))) ∧
    equip_item exArmorCatalog ⟨emptyInventory, ⟨0⟩, emptyEquipment⟩
        ⟨some 0, 1, none, none⟩
      = (⟨emptyInventory, ⟨0⟩, emptyEquipment⟩, some .itemNotFoundInInventory) :=
  ⟨rfl, by decide,
   (claim_C5_amended exArmorCatalog ⟨emptyInventory, ⟨0⟩, emptyEquipment⟩
      ⟨some 0, 1, none, none⟩ (.armor 0 .helmet 5) .helmet [] 0 1).1
     rfl (by decide)⟩

/-- Characterization of `unequip_item` on an occupied slot whose occupant
resolves in the catalog: clear the slot and return one unit to inventory;
armor_rating untouched (the subtraction branch is dead). -/
theorem unequip_item_some {cat : Catalog} {c : Character} {sl : Slot}
    {rec : EquipRec} {it : CatItem} (hslot : getSlot c.equipment sl = some rec)
    (hlook : get_item_by_id cat (some rec.item_id) = .ok it) :
    unequip_item cat c sl =
      ({ inventory := c.inventory.add_item it 1 rec.maker rec.temper,
         attributes := c.attributes,
         equipment := setSlot c.equipment sl none }, none) := by
  rw [unequip_item, hslot]
  simp only [hlook, inventoryItemsHasAttrArmor, Bool.false_eq_true, if_false]

/-- C6: for every character whose right hand holds a one-handed weapon,
a successful equip of an incoming weapon with a different item id behaves as
the spec states: a one-handed incoming weapon relocates the old right-hand
weapon to the left hand (whatever the left hand held before, since the
off-hand is cleared first) and — when the left hand was free, so that no
other unequip touches the weapon lists — leaves the inventory total of the
old weapon's id unchanged (the old weapon is not returned to inventory); a
two-handed incoming weapon leaves the left hand empty and the right hand
holding only the new weapon, and (left hand free) returns the old right-hand
occupant to inventory, its id total growing by one. -/
theorem claim_C6_weapon_hand_rules (cat : Catalog) (c : Character)
    (item : StackRec) (rh : EquipRec) (iid hands : Nat) (c' : Character)
    (hrh : c.equipment.right_hand = some rh)
    (hitem : get_item_by_id cat item.item_id = .ok (.weapon iid hands))
    (hrw : get_item_by_id cat (some rh.item_id) = .ok (.weapon rh.item_id 1))
    (hmem : item ∈ c.inventory.weaponItems)
    (hinvL : InvariantL c.inventory.weaponItems)
    (hne : iid ≠ rh.item_id)
    (hsucc : equip_item cat c item = (c', none)) :
    (hands = 1 →
      c'.equipment.left_hand = some rh ∧
      c'.equipment.right_hand = some ⟨iid, item.maker, item.temper⟩) ∧
    (hands = 2 →
      c'.equipment.left_hand = none ∧
      c'.equipment.right_hand = some ⟨iid, item.maker, item.temper⟩) ∧
    (c.equipment.left_hand = none → hands = 1 →
      countOfId c'.inventory.weaponItems rh.item_id
        = countOfId c.inventory.weaponItems rh.item_id) ∧
    (c.equipment.left_hand = none → hands = 2 →
      countOfId c'.inventory.weaponItems rh.item_id
        = countOfId c.inventory.weaponItems rh.item_id + 1) := by
  rw [equip_item, hitem] at hsucc
  simp only [get_item_category, getCat, CatItem.item_id, hrh, hrw,
    CatItem.getHands] at hsucc
  rw [if_pos hmem] at hsucc
  cases hlhc : c.equipment.left_hand with
  | none =>
    rw [hlhc] at hsucc
    simp only at hsucc
    have key1 : ∀ _ : hands = 1, ∃ l',
        RPG.remove_item c.inventory.weaponItems iid 1 = .ok l' ∧
        c' = { inventory := setCat c.inventory .weaponCat l',
               attributes := c.attributes,
               equipment := { c.equipment with
                   left_hand := some rh
                   right_hand := some (⟨iid, item.maker, item.temper⟩ : EquipRec) } } := by
      intro h1
      subst h1
      rw [if_neg (by omega)] at hsucc
      simp only [if_true, CatItem.item_id, finishEquip, Inventory.remove_item,
        get_item_category, getCat] at hsucc
      cases hrem : RPG.remove_item c.inventory.weaponItems iid 1 with
      | error e =>
        rw [hrem] at hsucc
        simp only at hsucc
        exact absurd (congrArg Prod.snd hsucc) (by simp)
      | ok l' =>
        rw [hrem] at hsucc
        simp only at hsucc
        refine ⟨l', rfl, ?_⟩
        have h := congrArg Prod.fst hsucc
        simpa using h.symm
    have key2 : ∀ _ : hands = 2, ∃ l',
        RPG.remove_item
            (RPG.add_item c.inventory.weaponItems rh.item_id 1 rh.maker rh.temper)
            iid 1 = .ok l' ∧
        c' = { inventory := { c.inventory with weaponItems := l' },
               attributes := c.attributes,
               equipment := { setSlot c.equipment .right_hand none with
                   right_hand := some (⟨iid, item.maker, item.temper⟩ : EquipRec) } } := by
      intro h2
      subst h2
      rw [if_pos rfl] at hsucc
      rw [unequip_item_some (by rw [getSlot, hrh]) hrw] at hsucc
      simp only [CatItem.item_id, Inventory.add_item, get_item_category, getCat,
        setCat, finishEquip, Inventory.remove_item] at hsucc
      cases hrem : RPG.remove_item
          (RPG.add_item c.inventory.weaponItems rh.item_id 1 rh.maker rh.temper)
          iid 1 with
      | error e =>
        rw [hrem] at hsucc
        simp only at hsucc
        exact absurd (congrArg Prod.snd hsucc) (by simp)
      | ok l' =>
        rw [hrem] at hsucc
        simp only at hsucc
        refine ⟨l', rfl, ?_⟩
        have h := congrArg Prod.fst hsucc
        simpa using h.symm
    refine ⟨?_, ?_, ?_, ?_⟩
    · intro h1
      obtain ⟨l', _, hc'⟩ := key1 h1
      subst hc'
      exact ⟨rfl, rfl⟩
    · intro h2
      obtain ⟨l', _, hc'⟩ := key2 h2
      subst hc'
      refine ⟨?_, rfl⟩
      show (setSlot c.equipment .right_hand none).left_hand = none
      rw [setSlot]
      exact hlhc
    · intro _ h1
      obtain ⟨l', hrem, hc'⟩ := key1 h1
      subst hc'
      show countOfId l' rh.item_id = countOfId c.inventory.weaponItems rh.item_id
      exact countOfId_remove_item_ne hinvL hrem hne
    · intro _ h2
      obtain ⟨l', hrem, hc'⟩ := key2 h2
      subst hc'
      show countOfId l' rh.item_id = countOfId c.inventory.weaponItems rh.item_id + 1
      have hInvAdd : InvariantL
          (RPG.add_item c.inventory.weaponItems rh.item_id 1 rh.maker rh.temper) :=
        invariantL_add (by norm_num) hinvL
      have ha := countOfId_remove_item_ne hInvAdd hrem hne
      have hb := countOfId_add_item c.inventory.weaponItems rh.item_id 1
        rh.maker rh.temper hinvL (by norm_num) rh.item_id
      rw [if_pos rfl] at hb
      rw [ha, hb]
  | some lh =>
    rw [hlhc] at hsucc
    simp only at hsucc
    cases hlk : get_item_by_id cat (some lh.item_id) with
    | error e =>
      rw [unequip_item] at hsucc
      simp only [getSlot, hlhc, hlk] at hsucc
      exact absurd (congrArg Prod.snd hsucc) (by simp)
    | ok itL =>
      rw [unequip_item_some (show getSlot c.equipment .left_hand = some lh from hlhc)
        hlk] at hsucc
      simp only at hsucc
      refine ⟨?_, ?_, ?_, ?_⟩
      · intro h1
        subst h1
        rw [if_neg (by omega)] at hsucc
        simp only [if_true, CatItem.item_id, finishEquip, Inventory.remove_item,
          get_item_category, getCat] at hsucc
        split at hsucc
        · exact absurd (congrArg Prod.snd hsucc) (by simp)
        · constructor
          · have hL := congrArg (fun p => (Prod.fst p).equipment.left_hand) hsucc
            simpa using hL.symm
          · have hR := congrArg (fun p => (Prod.fst p).equipment.right_hand) hsucc
            simpa using hR.symm
      · intro h2
        subst h2
        rw [if_pos rfl] at hsucc
        have hrslot : getSlot
            ({ inventory := c.inventory.add_item itL 1 lh.maker lh.temper,
               attributes := c.attributes,
               equipment := setSlot c.equipment .left_hand none } : Character).equipment
            .right_hand = some rh := by
          show (setSlot c.equipment .left_hand none).right_hand = some rh
          rw [setSlot]
          exact hrh
        rw [unequip_item_some hrslot hrw] at hsucc
        simp only [finishEquip, Inventory.remove_item, get_item_category,
          getCat] at hsucc
        split at hsucc
        · exact absurd (congrArg Prod.snd hsucc) (by simp)
        · constructor
          · have hL := congrArg (fun p => (Prod.fst p).equipment.left_hand) hsucc
            simp only at hL
            rw [← hL]
            show (setSlot (setSlot c.equipment .left_hand none) .right_hand none).left_hand
              = none
            rw [setSlot, setSlot]
          · have hR := congrArg (fun p => (Prod.fst p).equipment.right_hand) hsucc
            simpa using hR.symm
      · intro h0 _
        exact Option.noConfusion h0
      · intro h0 _
        exact Option.noConfusion h0

/-- Example catalog for the weapon rules: two one-handed weapons (ids 1, 4)
and a two-handed weapon (id 2). -/
def exWeaponCatalog : Catalog := [.weapon 1 1, .weapon 4 1, .weapon 2 2]

/-- Example character with weapon 1 in the right hand, and stacks of weapons
4 and 1 in inventory. -/
def exRightHandChar : Character :=
  ⟨⟨[⟨some 4, 1, none, none⟩, ⟨some 1, 2, none, none⟩], [], []⟩, ⟨0⟩,
   { emptyEquipment with right_hand := some ⟨1, none, none⟩ }⟩

/-- The state `exRightHandChar` reaches by equipping one-handed weapon 4. -/
def exC6Result : Character :=
  ⟨⟨[⟨some 1, 2, none, none⟩], [], []⟩, ⟨0⟩,
   { emptyEquipment with
      right_hand := some ⟨4, none, none⟩
      left_hand := some ⟨1, none, none⟩ }⟩

/-- Witness for C6: equipping one-handed weapon 4 over one-handed weapon 1
relocates weapon 1 to the left hand and leaves its inventory total
unchanged. -/
theorem claim_C6_weapon_hand_rules_witness :
    equip_item exWeaponCatalog exRightHandChar ⟨some 4, 1, none, none⟩
        = (exC6Result, none) ∧
    exC6Result.equipment.left_hand = some ⟨1, none, none⟩ ∧
    countOfId exC6Result.inventory.weaponItems 1
      = countOfId exRightHandChar.inventory.weaponItems 1 := by
  have h := claim_C6_weapon_hand_rules exWeaponCatalog exRightHandChar
      ⟨some 4, 1, none, none⟩ ⟨1, none, none⟩ 4 1 exC6Result rfl rfl rfl
      (by decide) (by unfold InvariantL; decide) (by decide) (by decide)
  exact ⟨by decide, (h.1 rfl).1, h.2.2.1 rfl rfl⟩

/-! ## Slot and category update lemmas -/

theorem getSlot_setSlot (e : Equipment) (sl : Slot) (v : Option EquipRec) :
    getSlot (setSlot e sl v) sl = v := by
  cases sl <;> rfl

theorem setSlot_setSlot (e : Equipment) (sl : Slot) (v w : Option EquipRec) :
    setSlot (setSlot e sl v) sl w = setSlot e sl w := by
  cases sl <;> rfl

theorem setSlot_none_of_getSlot_none {e : Equipment} {sl : Slot}
    (h : getSlot e sl = none) : setSlot e sl none = e := by
  cases sl <;> simp only [getSlot] at h <;> simp only [setSlot] <;>
    rw [← h]

theorem setCat_setCat (inv : Inventory) (cc : Category) (l l' : List StackRec) :
    setCat (setCat inv cc l) cc l' = setCat inv cc l' := by
  cases cc <;> rfl

theorem setCat_self (inv : Inventory) (cc : Category) :
    setCat inv cc (getCat inv cc) = inv := by
  cases cc <;> rfl

/-- Round trip of a singleton default stack through remove-one / add-one:
removing one unit and adding one unit restores the category list exactly,
going through the blank placeholder when the stack held a single unit. -/
theorem singleton_round (iid : Nat) (n : Int) (hn : 1 ≤ n) :
    ∃ R : List StackRec,
      remove_item [(⟨some iid, n, none, none⟩ : StackRec)] iid 1 = .ok R ∧
      add_item R iid 1 none none = [⟨some iid, n, none, none⟩] := by
  have hget : get_item [(⟨some iid, n, none, none⟩ : StackRec)] iid none none
      = some ⟨some iid, n, none, none⟩ := by
    simp [get_item, List.find?, matchesKey]
  have hbump : bumpFirst [(⟨some iid, n, none, none⟩ : StackRec)] iid none none (-1)
      = [⟨some iid, n + -1, none, none⟩] := by
    simp [bumpFirst, matchesKey]
  by_cases hn1 : n - 1 < 1
  · have hn' : n = 1 := by omega
    subst hn'
    refine ⟨[blank], ?_, ?_⟩
    · rw [remove_item, hget]
      simp only [hbump]
      rw [if_pos (by norm_num)]
      simp [prune, blank]
    · have hgetb : get_item [blank] iid none none = none := by
        simp [get_item, List.find?, matchesKey, blank]
      rw [add_item, hgetb]
      simp [prune, blank]
  · refine ⟨[⟨some iid, n + -1, none, none⟩], ?_, ?_⟩
    · rw [remove_item, hget]
      simp only [hbump]
      rw [if_neg (by omega)]
    · have hget2 : get_item [(⟨some iid, n + -1, none, none⟩ : StackRec)] iid none none
          = some ⟨some iid, n + -1, none, none⟩ := by
        simp [get_item, List.find?, matchesKey]
      rw [add_item, hget2]
      simp only [bumpFirst, matchesKey]
      have harith : n + -1 + 1 = n := by ring
      simp [harith]

/-! ## Per-key stack totals and the generalized round trip -/

/-- Total stacked quantity of the exact (item id, maker, temper) key across
a category list: the quantity the spec's "same stack quantity, maker,
temper" refers to.  The blank placeholder matches no key. -/
def countOfKey (l : List StackRec) (j : Nat) (m : Option String)
    (t : Option Int) : Int :=
  (l.map (fun x => if matchesKey x j m t then x.count else 0)).sum

theorem countOfKey_nil (j : Nat) (m : Option String) (t : Option Int) :
    countOfKey [] j m t = 0 := rfl

theorem countOfKey_cons (r : StackRec) (l : List StackRec) (j : Nat)
    (m : Option String) (t : Option Int) :
    countOfKey (r :: l) j m t =
      (if matchesKey r j m t then r.count else 0) + countOfKey l j m t := by
  simp [countOfKey]

theorem countOfKey_append (l₁ l₂ : List StackRec) (j : Nat)
    (m : Option String) (t : Option Int) :
    countOfKey (l₁ ++ l₂) j m t = countOfKey l₁ j m t + countOfKey l₂ j m t := by
  simp [countOfKey]

/-- The key of a record does not depend on its count. -/
theorem matchesKey_set_count (r : StackRec) (x : Int) (j : Nat)
    (m : Option String) (t : Option Int) :
    matchesKey { r with count := x } j m t = matchesKey r j m t := rfl

/-- A record matching the default key of `iid` carries the same key fields
as the canonical record, so it hits exactly the same countOfKey keys. -/
theorem matchesKey_of_default {r : StackRec} {iid : Nat}
    (h : matchesKey r iid none none = true) (x : Int) (j : Nat)
    (m : Option String) (t : Option Int) :
    matchesKey r j m t = matchesKey ⟨some iid, x, none, none⟩ j m t := by
  simp only [matchesKey, Bool.and_eq_true, beq_iff_eq] at h
  obtain ⟨⟨hid, hm⟩, ht⟩ := h
  simp [matchesKey, hid, hm, ht]

/-- `bumpFirst` on a list where the key is present shifts the total of the
bumped record's own key by `d` and leaves every other key untouched. -/
theorem countOfKey_bumpFirst {l : List StackRec} {iid : Nat} {m0 : Option String}
    {t0 : Option Int} {r : StackRec} (h : get_item l iid m0 t0 = some r)
    (d : Int) (j : Nat) (m : Option String) (t : Option Int) :
    countOfKey (bumpFirst l iid m0 t0 d) j m t
      = countOfKey l j m t + (if matchesKey r j m t then d else 0) := by
  obtain ⟨l₁, l₂, hl, hb⟩ := bumpFirst_decomp h d
  rw [hb, hl, countOfKey_append, countOfKey_append, countOfKey_cons,
    countOfKey_cons]
  simp only [matchesKey_set_count]
  by_cases hmk : matchesKey r j m t = true
  · rw [if_pos hmk, if_pos hmk, if_pos hmk]
    show countOfKey l₁ j m t + (r.count + d + countOfKey l₂ j m t)
      = countOfKey l₁ j m t + (r.count + countOfKey l₂ j m t) + d
    ring
  · rw [if_neg hmk, if_neg hmk, if_neg hmk]
    ring

/-- Pruning does not change any key total when every count is nonnegative
(zero-count records contribute nothing). -/
theorem countOfKey_prune_nonneg {l : List StackRec}
    (h : ∀ x ∈ l, 0 ≤ x.count) (j : Nat) (m : Option String) (t : Option Int) :
    countOfKey (prune l) j m t = countOfKey l j m t := by
  induction l with
  | nil => rfl
  | cons a as ih =>
    by_cases ha : 0 < a.count
    · rw [prune, List.filter_cons_of_pos (by simpa using ha), ← prune,
        countOfKey_cons, countOfKey_cons,
        ih (fun x hx => h x (List.mem_cons_of_mem _ hx))]
    · have ha0 : a.count = 0 :=
        le_antisymm (not_lt.1 ha) (h a (List.mem_cons_self _ _))
      rw [prune, List.filter_cons_of_neg (by simpa using ha), ← prune,
        ih (fun x hx => h x (List.mem_cons_of_mem _ hx)), countOfKey_cons, ha0]
      simp

theorem countOfKey_blankList (j : Nat) (m : Option String) (t : Option Int) :
    countOfKey [blank] j m t = 0 := by
  simp [countOfKey, matchesKey, blank]

/-- Lists satisfying the per-category invariant have nonnegative counts. -/
theorem invariantL_nonneg {l : List StackRec} (h : InvariantL l) :
    ∀ x ∈ l, 0 ≤ x.count := by
  intro x hx
  rcases h.1 x hx with h' | h'
  · rw [h']
    norm_num [blank]
  · exact le_of_lt h'

/-- `add_item` with maker/temper None and positive count raises the
(iid, None, None) key total by the count and no other key total, for lists
satisfying the invariant. -/
theorem countOfKey_add_item_default {l : List StackRec} {iid : Nat} {cnt : Int}
    (hInv : InvariantL l) (hc : 0 < cnt) (j : Nat) (m : Option String)
    (t : Option Int) :
    countOfKey (add_item l iid cnt none none) j m t
      = countOfKey l j m t
        + (if matchesKey ⟨some iid, cnt, none, none⟩ j m t then cnt else 0) := by
  rw [add_item]
  cases hfind : get_item l iid none none with
  | some r =>
    rw [countOfKey_bumpFirst hfind cnt j m t,
      matchesKey_of_default (get_item_some_key hfind) cnt j m t]
  | none =>
    have hnn : ∀ x ∈ l ++ [(⟨some iid, cnt, none, none⟩ : StackRec)], 0 ≤ x.count := by
      intro x hx
      rcases List.mem_append.1 hx with hx | hx
      · exact invariantL_nonneg hInv x hx
      · rcases List.mem_singleton.1 hx with rfl
        exact le_of_lt hc
    rw [countOfKey_prune_nonneg hnn, countOfKey_append, countOfKey_cons,
      countOfKey_nil]
    ring

/-- Removing one unit lowers the (iid, None, None) key total by one and no
other key total, for lists satisfying the invariant (the decremented record
stays nonnegative, and the blank placeholder contributes nothing). -/
theorem countOfKey_remove_one_default {l R : List StackRec} {iid : Nat}
    (hInv : InvariantL l) (hr : remove_item l iid 1 = .ok R) (j : Nat)
    (m : Option String) (t : Option Int) :
    countOfKey R j m t
      = countOfKey l j m t
        - (if matchesKey ⟨some iid, (1 : Int), none, none⟩ j m t then 1 else 0) := by
  rw [remove_item] at hr
  cases hfind : get_item l iid none none with
  | none => rw [hfind] at hr; cases hr
  | some r =>
    rw [hfind] at hr
    simp only at hr
    have hkey := get_item_some_key hfind
    have hid : r.item_id = some iid := matchesKey_item_id hkey
    have hrblank : r ≠ blank := by
      intro he
      rw [he] at hid
      simp [blank] at hid
    have hrmem : r ∈ l := get_item_some_mem hfind
    have hrpos : 0 < r.count := by
      rcases hInv.1 r hrmem with h' | h'
      · exact absurd h' hrblank
      · exact h'
    have hbump := countOfKey_bumpFirst hfind (-1) j m t
    rw [matchesKey_of_default hkey 1 j m t] at hbump
    have hnn1 : ∀ x ∈ bumpFirst l iid none none (-1), 0 ≤ x.count := by
      intro x hx
      obtain ⟨l₁, l₂, hl, hb⟩ := bumpFirst_decomp hfind (-1)
      rw [hb] at hx
      rcases List.mem_append.1 hx with hx | hx
      · exact invariantL_nonneg hInv x (by rw [hl]; exact List.mem_append_left _ hx)
      · rcases List.mem_cons.1 hx with hx | hx
        · rw [hx]
          show 0 ≤ r.count + -1
          omega
        · exact invariantL_nonneg hInv x
            (by rw [hl]; exact List.mem_append_right _ (List.mem_cons_of_mem _ hx))
    split at hr
    · split at hr
      · injection hr with hr
        subst hr
        rename_i hcond hlen
        have hempty : prune (bumpFirst l iid none none (-1)) = [] :=
          List.eq_nil_of_length_eq_zero (by omega)
        have h0 : countOfKey (bumpFirst l iid none none (-1)) j m t = 0 := by
          rw [← countOfKey_prune_nonneg hnn1, hempty, countOfKey_nil]
        rw [countOfKey_blankList]
        rw [h0] at hbump
        by_cases hmk : matchesKey ⟨some iid, (1 : Int), none, none⟩ j m t = true
        · rw [if_pos hmk]
          rw [if_pos hmk] at hbump
          omega
        · rw [if_neg hmk]
          rw [if_neg hmk] at hbump
          omega
      · injection hr with hr
        subst hr
        rw [countOfKey_prune_nonneg hnn1, hbump]
        by_cases hmk : matchesKey ⟨some iid, (1 : Int), none, none⟩ j m t = true
        · rw [if_pos hmk, if_pos hmk]
          ring
        · rw [if_neg hmk, if_neg hmk]
          ring
    · injection hr with hr
      subst hr
      rw [hbump]
      by_cases hmk : matchesKey ⟨some iid, (1 : Int), none, none⟩ j m t = true
      · rw [if_pos hmk, if_pos hmk]
        ring
      · rw [if_neg hmk, if_neg hmk]
        ring

/-- C1, amended: for any inventory record sitting in the default
(maker None, temper None) stack of its item's category — with arbitrary
other stacks alongside it — and with the target equipment slots empty
before the equip: equipping the record and then immediately unequipping the
slot it landed in succeeds and restores the inventory's pre-equip stack
totals for every (item id, maker, temper) key of that category (passing
through the blank placeholder when the category empties), leaves the other
two categories untouched, and restores the equipment; the armor rating is
restored for weapons (which never touch it), but for an armor item it ends
at its pre-equip value PLUS the item's armor value — the unequip
subtraction is dead code, so the round trip does not restore armor_rating
for armor. -/
theorem claim_C1_amended (cat : Catalog) (c : Character) (iid : Nat)
    (r : StackRec) :
    (∀ (aslot : ArmorSlot) (a : Int) (sl : Slot),
      get_item_by_id cat (some iid) = .ok (.armor iid aslot a) →
      toSlot aslot = some sl →
      getSlot c.equipment sl = none →
      InvariantL c.inventory.armorItems →
      get_item c.inventory.armorItems iid none none = some r →
      ∃ c1 c2 : Character,
        equip_item cat c r = (c1, none) ∧
        unequip_item cat c1 sl = (c2, none) ∧
        (∀ (j : Nat) (m : Option String) (t : Option Int),
          countOfKey c2.inventory.armorItems j m t
            = countOfKey c.inventory.armorItems j m t) ∧
        c2.inventory.weaponItems = c.inventory.weaponItems ∧
        c2.inventory.otherItems = c.inventory.otherItems ∧
        c2.equipment = c.equipment ∧
        c2.attributes.armor_rating = c.attributes.armor_rating + a) ∧
    (∀ hands : Nat,
      get_item_by_id cat (some iid) = .ok (.weapon iid hands) →
      c.equipment.right_hand = none →
      InvariantL c.inventory.weaponItems →
      get_item c.inventory.weaponItems iid none none = some r →
      ∃ c1 c2 : Character,
        equip_item cat c r = (c1, none) ∧
        unequip_item cat c1 .right_hand = (c2, none) ∧
        (∀ (j : Nat) (m : Option String) (t : Option Int),
          countOfKey c2.inventory.weaponItems j m t
            = countOfKey c.inventory.weaponItems j m t) ∧
        c2.inventory.armorItems = c.inventory.armorItems ∧
        c2.inventory.otherItems = c.inventory.otherItems ∧
        c2.equipment = c.equipment ∧
        c2.attributes.armor_rating = c.attributes.armor_rating) := by
  obtain ⟨rid, n, rmaker, rtemper⟩ := r
  constructor
  · intro aslot a sl hlook hmap hslot hInv hfind
    have hkey := get_item_some_key hfind
    simp only [matchesKey, Bool.and_eq_true, beq_iff_eq] at hkey
    obtain ⟨⟨hid, hm⟩, ht⟩ := hkey
    subst hid
    subst hm
    subst ht
    have hmem : (⟨some iid, n, none, none⟩ : StackRec) ∈ c.inventory.armorItems :=
      get_item_some_mem hfind
    have hremE : ∃ R, remove_item c.inventory.armorItems iid 1 = .ok R := by
      rw [remove_item, hfind]
      simp only
      split <;> exact ⟨_, rfl⟩
    obtain ⟨R, hrem⟩ := hremE
    have hInvR : InvariantL R := invariantL_remove hInv hrem
    have hlook2 : get_item_by_id cat
        (StackRec.item_id ⟨some iid, n, none, none⟩) = .ok (.armor iid aslot a) :=
      hlook
    refine ⟨{ inventory := setCat c.inventory .armorCat R,
              attributes := ⟨c.attributes.armor_rating + a⟩,
              equipment := setSlot c.equipment sl (some ⟨iid, none, none⟩) },
            { inventory :=
                (setCat c.inventory .armorCat R).add_item (.armor iid aslot a)
                  1 none none,
              attributes := ⟨c.attributes.armor_rating + a⟩,
              equipment :=
                setSlot (setSlot c.equipment sl (some ⟨iid, none, none⟩)) sl none },
            ?_, ?_, ?_, rfl, rfl, ?_, rfl⟩
    · simp only [equip_item, hlook2, get_item_category, getCat, CatItem.item_id,
        hmap, hslot, finishEquip, Inventory.remove_item]
      rw [if_pos hmem]
      simp only [hrem, setCat]
    · have hslot1 : getSlot (setSlot c.equipment sl
          (some (⟨iid, none, none⟩ : EquipRec))) sl = some ⟨iid, none, none⟩ :=
        getSlot_setSlot _ _ _
      have hlook3 : get_item_by_id cat
          (some (EquipRec.item_id ⟨iid, none, none⟩)) = .ok (.armor iid aslot a) :=
        hlook
      exact unequip_item_some hslot1 hlook3
    · intro j m t
      show countOfKey (RPG.add_item R iid 1 none none) j m t
        = countOfKey c.inventory.armorItems j m t
      rw [countOfKey_add_item_default hInvR (by norm_num) j m t,
        countOfKey_remove_one_default hInv hrem j m t]
      ring
    · show setSlot (setSlot c.equipment sl (some ⟨iid, none, none⟩)) sl none
        = c.equipment
      rw [setSlot_setSlot]
      exact setSlot_none_of_getSlot_none hslot
  · intro hands hlook hrh hInv hfind
    have hkey := get_item_some_key hfind
    simp only [matchesKey, Bool.and_eq_true, beq_iff_eq] at hkey
    obtain ⟨⟨hid, hm⟩, ht⟩ := hkey
    subst hid
    subst hm
    subst ht
    have hmem : (⟨some iid, n, none, none⟩ : StackRec) ∈ c.inventory.weaponItems :=
      get_item_some_mem hfind
    have hremE : ∃ R, remove_item c.inventory.weaponItems iid 1 = .ok R := by
      rw [remove_item, hfind]
      simp only
      split <;> exact ⟨_, rfl⟩
    obtain ⟨R, hrem⟩ := hremE
    have hInvR : InvariantL R := invariantL_remove hInv hrem
    have hlook2 : get_item_by_id cat
        (StackRec.item_id ⟨some iid, n, none, none⟩) = .ok (.weapon iid hands) :=
      hlook
    refine ⟨{ inventory := setCat c.inventory .weaponCat R,
              attributes := c.attributes,
              equipment := { c.equipment with right_hand := some ⟨iid, none, none⟩ } },
            { inventory :=
                (setCat c.inventory .weaponCat R).add_item (.weapon iid hands)
                  1 none none,
              attributes := c.attributes,
              equipment :=
                setSlot ({ c.equipment with
                    right_hand := some ⟨iid, none, none⟩ } : Equipment)
                  .right_hand none },
            ?_, ?_, ?_, rfl, rfl, ?_, rfl⟩
    · simp only [equip_item, hlook2, get_item_category, getCat, CatItem.item_id,
        hrh, finishEquip, Inventory.remove_item]
      rw [if_pos hmem]
      simp only [hrem, setCat]
    · have hslot1 : getSlot
          ({ c.equipment with right_hand := some ⟨iid, none, none⟩ } : Equipment)
          .right_hand = some ⟨iid, none, none⟩ := rfl
      have hlook3 : get_item_by_id cat
          (some (EquipRec.item_id ⟨iid, none, none⟩)) = .ok (.weapon iid hands) :=
        hlook
      exact unequip_item_some hslot1 hlook3
    · intro j m t
      show countOfKey (RPG.add_item R iid 1 none none) j m t
        = countOfKey c.inventory.weaponItems j m t
      rw [countOfKey_add_item_default hInvR (by norm_num) j m t,
        countOfKey_remove_one_default hInv hrem j m t]
      ring
    · show setSlot ({ c.equipment with
          right_hand := some ⟨iid, none, none⟩ } : Equipment) .right_hand none
        = c.equipment
      have hstep : setSlot ({ c.equipment with
          right_hand := some (⟨iid, none, none⟩ : EquipRec) } : Equipment)
          .right_hand none = { c.equipment with right_hand := none } := rfl
      rw [hstep, ← hrh]

/-- Example catalog with two armor pieces: a helmet (armor 5) and boots
(armor 2). -/
def exTwoArmorCatalog : Catalog := [.armor 0 .helmet 5, .armor 7 .boots 2]

/-- Example character holding the default helmet stack alongside a second
(boots) stack in the same Armor category. -/
def exTwoArmorChar : Character :=
  ⟨⟨[], [⟨some 0, 1, none, none⟩, ⟨some 7, 3, none, none⟩], []⟩, ⟨0⟩,
   emptyEquipment⟩

/-- Witness for the amended C1, exercising a non-singleton category: with a
boots stack alongside the helmet stack, the helmet round trip restores both
stacks' totals and the equipment, and adds the helmet's armor value to the
rating. -/
theorem claim_C1_amended_witness :
    ∃ c1 c2 : Character,
      equip_item exTwoArmorCatalog exTwoArmorChar ⟨some 0, 1, none, none⟩
          = (c1, none) ∧
      unequip_item exTwoArmorCatalog c1 .helmet = (c2, none) ∧
      countOfKey c2.inventory.armorItems 0 none none
        = countOfKey exTwoArmorChar.inventory.armorItems 0 none none ∧
      countOfKey c2.inventory.armorItems 7 none none
        = countOfKey exTwoArmorChar.inventory.armorItems 7 none none ∧
      c2.equipment = exTwoArmorChar.equipment ∧
      c2.attributes.armor_rating = exTwoArmorChar.attributes.armor_rating + 5 := by
  obtain ⟨c1, c2, h1, h2, h3, _, _, h6, h7⟩ :=
    (claim_C1_amended exTwoArmorCatalog exTwoArmorChar 0
        ⟨some 0, 1, none, none⟩).1
      .helmet 5 .helmet rfl rfl rfl (by unfold InvariantL; decide) rfl
  exact ⟨c1, c2, h1, h2, h3 0 none none, h3 7 none none, h6, h7⟩

end RPG
